import Mathlib

/-!
# Verification of the heightmap compute pipeline

Shallow embedding, over `ℚ`, of the per-pixel kernel math and the host-side
driver logic of the heightmap generator:

* the terrain-synthesis kernel (`COMPUTE_SHADER_SRC` in the layered-synthesis
  module): blend weights, layer combination and final clamp;
* the refinement kernel (`REFINE_SHADER_SRC`): border-clamped sampling,
  7×7 Gaussian blur, gradient magnitude, fractal displacement, coastline
  contrast, mountain sharpening and the per-pixel main function;
* the 16-bit export codec (`downloadHeightmap16`);
* the dispatch-grid computation and the per-thread bounds guard;
* the cached-pipeline / device-lost and buffer-lifecycle driver logic.

Scalars are modelled as rationals.  The three transcendental intrinsics the
shaders use — `exp` (Gaussian weights), `sqrt` (gradient magnitude) and
`pow` with non-integer exponent — have no exact rational realisation, so they
are passed as explicit function parameters (`RefineOps`, `fpow13`), and the
theorems quantify over them (adding only the hypotheses the real functions
satisfy, such as positivity of `exp` or `pow 0 = 0`).  All other WGSL
builtins (`clamp`, `mix`, `smoothstep`, `fract`, `floor`, `round`, `abs`)
are exact on rationals and are defined below following the WGSL semantics.
-/

/- ------------------------------------------------------------------ -/
/-  WGSL scalar builtins on ℚ                                         -/
/- ------------------------------------------------------------------ -/

/-- WGSL `clamp(e, low, high) = min(max(e, low), high)`. -/
def clampQ (x lo hi : ℚ) : ℚ := min (max x lo) hi

/-- WGSL `mix(x, y, a) = x * (1 - a) + y * a`. -/
def mixQ (x y a : ℚ) : ℚ := x * (1 - a) + y * a

/-- WGSL `smoothstep(e0, e1, x)`: clamp the normalised position to `[0,1]`
then apply the cubic Hermite polynomial `t²(3 − 2t)`. -/
def smoothstepQ (e0 e1 x : ℚ) : ℚ :=
  let t := clampQ ((x - e0) / (e1 - e0)) 0 1
  t * t * (3 - 2 * t)

/-- WGSL `fract(x) = x - floor(x)`. -/
def fractQ (x : ℚ) : ℚ := x - ⌊x⌋

/-- WGSL `round`: nearest integer, ties to even. -/
def roundEvenQ (x : ℚ) : ℤ :=
  let f := ⌊x⌋
  if x - f < 1 / 2 then f
  else if 1 / 2 < x - f then f + 1
  else if f % 2 = 0 then f else f + 1

/- ------------------------------------------------------------------ -/
/-  Terrain-synthesis kernel: blend weights and combination           -/
/-  (COMPUTE_SHADER_SRC, fn main, blend/combine section)              -/
/- ------------------------------------------------------------------ -/

/-- Weight `hillWeight`: bell curve peaking at painted ≈ 0.5
(`smoothstep(0.05, 0.30, painted) * smoothstep(0.90, 0.55, painted)`). -/
def hillWeight (painted : ℚ) : ℚ :=
  smoothstepQ (5/100) (30/100) painted * smoothstepQ (90/100) (55/100) painted

/-- Weight `mtnWeight`: ramps in above painted ≈ 0.5
(`smoothstep(0.40, 0.80, painted)`). -/
def mtnWeight (painted : ℚ) : ℚ := smoothstepQ (40/100) (80/100) painted

/-- Weight `detailWeight`: fades in whenever anything is painted
(`smoothstep(0.05, 0.25, painted) * 0.06`). -/
def detailWeight (painted : ℚ) : ℚ :=
  smoothstepQ (5/100) (25/100) painted * (6/100)

/-- The combined pre-clamp height of the terrain-synthesis kernel:
`hillWeight*(continental*0.5) + mtnWeight*(ridges*painted) + detailWeight*detail`,
with the three noise samples at the warped position of the pixel as parameters. -/
def terrainCombine (painted continental ridges detail : ℚ) : ℚ :=
  hillWeight painted * (continental * (5/10))
    + mtnWeight painted * (ridges * painted)
    + detailWeight painted * detail

/-- The value the terrain-synthesis kernel stores at the pixel:
`clamp(pow(clamp(height, 0, 1), 1.3), 0, 1)`.  `fpow13` stands for the
(real-valued, hence parametrised) function `x ↦ pow(x, 1.3)`. -/
def terrainOut (fpow13 : ℚ → ℚ) (painted continental ridges detail : ℚ) : ℚ :=
  clampQ (fpow13 (clampQ (terrainCombine painted continental ridges detail) 0 1)) 0 1

/-- The mountain contribution term of the combine step:
`mtnWeight(v) * (ridges * v)`. -/
def mtnTerm (ridges v : ℚ) : ℚ := mtnWeight v * (ridges * v)

/- ------------------------------------------------------------------ -/
/-  Refinement kernel: coastline contrast                             -/
/- ------------------------------------------------------------------ -/

/-- Step `coastlineContrast(v) = v * smoothstep(0.03, 0.12, v)`
(coastLow = 0.03, coastHigh = 0.12). -/
def coastlineContrast (v : ℚ) : ℚ := v * smoothstepQ (3/100) (12/100) v

/- ------------------------------------------------------------------ -/
/-  Basic clamp lemmas                                                -/
/- ------------------------------------------------------------------ -/

lemma clampQ_nonneg (x hi : ℚ) (hhi : 0 ≤ hi) : 0 ≤ clampQ x 0 hi := by
  unfold clampQ
  rcases le_total (max x 0) hi with h | h
  · simp [min_eq_left h]
  · simp [min_eq_right h, hhi]

lemma clampQ_le_hi (x lo hi : ℚ) : clampQ x lo hi ≤ hi := min_le_right _ _

lemma clampQ_eq_zero_of_nonpos {x : ℚ} (hx : x ≤ 0) : clampQ x 0 1 = 0 := by
  unfold clampQ
  rw [max_eq_right hx]
  simp

lemma clampQ_eq_one_of_le {x : ℚ} (hx : 1 ≤ x) : clampQ x 0 1 = 1 := by
  unfold clampQ
  rw [max_eq_left (le_trans zero_le_one hx)]
  exact min_eq_right hx

lemma smoothstepQ_eq_zero {e0 e1 x : ℚ} (h01 : e0 < e1) (hx : x ≤ e0) :
    smoothstepQ e0 e1 x = 0 := by
  unfold smoothstepQ
  have harg : (x - e0) / (e1 - e0) ≤ 0 :=
    div_nonpos_of_nonpos_of_nonneg (by linarith) (by linarith)
  simp [clampQ_eq_zero_of_nonpos harg]

lemma smoothstepQ_eq_one {e0 e1 x : ℚ} (h01 : e0 < e1) (hx : e1 ≤ x) :
    smoothstepQ e0 e1 x = 1 := by
  unfold smoothstepQ
  have harg : 1 ≤ (x - e0) / (e1 - e0) := by
    rw [le_div_iff₀ (by linarith)]
    linarith
  rw [clampQ_eq_one_of_le harg]
  ring

lemma clampQ_mono {x y : ℚ} (lo hi : ℚ) (h : x ≤ y) :
    clampQ x lo hi ≤ clampQ y lo hi :=
  min_le_min (max_le_max h le_rfl) le_rfl

lemma smoothstepQ_nonneg (e0 e1 x : ℚ) : 0 ≤ smoothstepQ e0 e1 x := by
  simp only [smoothstepQ]
  have h0 : 0 ≤ clampQ ((x - e0) / (e1 - e0)) 0 1 := clampQ_nonneg _ _ zero_le_one
  have h1 : clampQ ((x - e0) / (e1 - e0)) 0 1 ≤ 1 := clampQ_le_hi _ _ _
  nlinarith

lemma smoothstepQ_mono {e0 e1 x y : ℚ} (h01 : e0 < e1) (hxy : x ≤ y) :
    smoothstepQ e0 e1 x ≤ smoothstepQ e0 e1 y := by
  simp only [smoothstepQ]
  have hc : (0:ℚ) ≤ (e1 - e0)⁻¹ := inv_nonneg.mpr (by linarith)
  have harg : (x - e0) / (e1 - e0) ≤ (y - e0) / (e1 - e0) := by
    rw [div_eq_mul_inv, div_eq_mul_inv]
    exact mul_le_mul_of_nonneg_right (by linarith) hc
  set t1 := clampQ ((x - e0) / (e1 - e0)) 0 1 with ht1
  set t2 := clampQ ((y - e0) / (e1 - e0)) 0 1 with ht2
  have ht : t1 ≤ t2 := clampQ_mono 0 1 harg
  have h1 : 0 ≤ t1 := clampQ_nonneg _ _ zero_le_one
  have h2 : t2 ≤ 1 := clampQ_le_hi _ _ _
  nlinarith [mul_nonneg (sub_nonneg.2 ht) (mul_nonneg h1 (by linarith : (0:ℚ) ≤ 1 - t1)),
    mul_nonneg (sub_nonneg.2 ht) (mul_nonneg (h1.trans ht) (by linarith : (0:ℚ) ≤ 1 - t2)),
    mul_nonneg (sub_nonneg.2 ht)
      (mul_nonneg (by linarith : (0:ℚ) ≤ t1 + t2) (by linarith : (0:ℚ) ≤ 2 - t1 - t2))]

/- ------------------------------------------------------------------ -/
/-  Claim theorems (terrain side)                                     -/
/- ------------------------------------------------------------------ -/

/-- C3: for every value `v ≥ 0.12` entering the coastline-contrast step of the
refinement kernel, the step returns `v` unchanged:
the `smoothstep(0.03, 0.12, v)` multiplier saturates to `1`. -/
theorem coastlineContrast_pass_through (v : ℚ) (hv : 12/100 ≤ v) :
    coastlineContrast v = v := by
  unfold coastlineContrast
  rw [smoothstepQ_eq_one (by norm_num) hv]
  ring

/-- Witness for `coastlineContrast_pass_through` at `v = 1/2`. -/
theorem coastlineContrast_pass_through_witness :
    (12/100 : ℚ) ≤ 1/2 ∧ coastlineContrast (1/2) = 1/2 :=
  ⟨by norm_num, coastlineContrast_pass_through (1/2) (by norm_num)⟩

/-- C2: flat-ground invariant of the terrain-synthesis kernel.  For every
pixel whose painted intensity is below `0.02`, the stored output is below
`0.01` — in fact exactly `0` — for arbitrary values of the continental,
ridge and detail noise, because all three blend weights vanish for
`painted ≤ 0.05` and `pow(clamp(0,0,1), 1.3) = 0`.  The parametrised
`fpow13` models `x ↦ pow(x, 1.3)`; `pow 0 = 0` is the only fact about it
the proof uses. -/
theorem terrain_flat_ground (fpow13 : ℚ → ℚ) (hpow : fpow13 0 = 0)
    (painted continental ridges detail : ℚ) (hv : painted < 2/100) :
    terrainOut fpow13 painted continental ridges detail < 1/100 := by
  have h1 : hillWeight painted = 0 := by
    unfold hillWeight
    rw [smoothstepQ_eq_zero (by norm_num) (by linarith : painted ≤ 5/100)]
    ring
  have h2 : mtnWeight painted = 0 :=
    smoothstepQ_eq_zero (by norm_num) (by linarith : painted ≤ 40/100)
  have h3 : detailWeight painted = 0 := by
    unfold detailWeight
    rw [smoothstepQ_eq_zero (by norm_num) (by linarith : painted ≤ 5/100)]
    ring
  have hcomb : terrainCombine painted continental ridges detail = 0 := by
    unfold terrainCombine
    rw [h1, h2, h3]
    ring
  unfold terrainOut
  rw [hcomb, clampQ_eq_zero_of_nonpos le_rfl, hpow, clampQ_eq_zero_of_nonpos le_rfl]
  norm_num

/-- Witness for `terrain_flat_ground` with the identity standing in for
`pow(·, 1.3)`, painted intensity `0` and arbitrary noise values. -/
theorem terrain_flat_ground_witness :
    (fun x : ℚ => x) 0 = 0 ∧ (0:ℚ) < 2/100 ∧
      terrainOut (fun x : ℚ => x) 0 5 (-3) 7 < 1/100 :=
  ⟨rfl, by norm_num, terrain_flat_ground (fun x => x) rfl 0 5 (-3) 7 (by norm_num)⟩

/-- C4: monotonicity of the mountain term.  For a fixed non-negative
ridged-noise value, `mtnWeight(v) * (ridges * v)` is non-decreasing as the
painted intensity `v` increases from `0.5` to `1.0`. -/
theorem mtnTerm_monotone (ridges v1 v2 : ℚ) (hr : 0 ≤ ridges)
    (hlo : 1/2 ≤ v1) (h12 : v1 ≤ v2) (_hhi : v2 ≤ 1) :
    mtnTerm ridges v1 ≤ mtnTerm ridges v2 := by
  unfold mtnTerm mtnWeight
  have hs := smoothstepQ_mono (show (40:ℚ)/100 < 80/100 by norm_num) h12
  have hs1 : 0 ≤ smoothstepQ (40/100) (80/100) v1 := smoothstepQ_nonneg _ _ _
  have hv1 : (0:ℚ) ≤ v1 := by linarith
  have key : smoothstepQ (40/100) (80/100) v1 * v1
      ≤ smoothstepQ (40/100) (80/100) v2 * v2 :=
    mul_le_mul hs h12 hv1 (hs1.trans hs)
  nlinarith [mul_le_mul_of_nonneg_left key hr]

/-- Witness for `mtnTerm_monotone` at `ridges = 2`, `v1 = 1/2`, `v2 = 3/4`. -/
theorem mtnTerm_monotone_witness :
    (0:ℚ) ≤ 2 ∧ (1/2:ℚ) ≤ 1/2 ∧ (1/2:ℚ) ≤ 3/4 ∧ (3/4:ℚ) ≤ 1 ∧
      mtnTerm 2 (1/2) ≤ mtnTerm 2 (3/4) :=
  ⟨by norm_num, le_rfl, by norm_num, by norm_num,
    mtnTerm_monotone 2 (1/2) (3/4) (by norm_num) le_rfl (by norm_num) (by norm_num)⟩

/- ------------------------------------------------------------------ -/
/-  Refinement kernel: field model and per-pixel pipeline             -/
/-  (REFINE_SHADER_SRC)                                               -/
/- ------------------------------------------------------------------ -/

/-- A heightmap field: row-major scalar data with explicit dimensions,
modelling `params : Params` together with the `heightmapIn` storage array. -/
structure FieldQ where
  width : ℤ
  height : ℤ
  data : ℕ → ℚ

/-- The transcendental intrinsics the refine shader uses, passed explicitly:
`fexp` models `exp`, `fsqrt` models `sqrt`, `fpow06` models `x ↦ pow(x, 0.6)`. -/
structure RefineOps where
  fexp : ℚ → ℚ
  fsqrt : ℚ → ℚ
  fpow06 : ℚ → ℚ

/-- Integer `clamp(x, lo, hi)`. -/
def iclamp (x lo hi : ℤ) : ℤ := min (max x lo) hi

/-- Read `sampleClamped(x, y)`: read `heightmapIn` with the coordinate clamped to
the border of the field (`clamp(x, 0, width-1)`, `clamp(y, 0, height-1)`). -/
def sampleClamped (F : FieldQ) (x y : ℤ) : ℚ :=
  F.data ((iclamp y 0 (F.height - 1)) * F.width + iclamp x 0 (F.width - 1)).toNat

/-- Hash `hash2(p)`: `q = fract(p * vec2f(123.34, 456.21)); q = q + dot(q, q + 45.32);
fract(q.x * q.y)`. -/
def hash2 (p : ℚ × ℚ) : ℚ :=
  let q1 := fractQ (p.1 * (12334/100))
  let q2 := fractQ (p.2 * (45621/100))
  let d := q1 * (q1 + 4532/100) + q2 * (q2 + 4532/100)
  fractQ ((q1 + d) * (q2 + d))

/-- The quintic fade `f³(f(6f − 15) + 10)` used by `valueNoise`. -/
def quinticFade (f : ℚ) : ℚ := f * f * f * (f * (f * 6 - 15) + 10)

/-- Noise `valueNoise(p)`: bilinear interpolation of `hash2` at the four lattice
corners of `floor(p)`, with quintic fade weights. -/
def valueNoise (p : ℚ × ℚ) : ℚ :=
  let ix : ℚ := (⌊p.1⌋ : ℤ)
  let iy : ℚ := (⌊p.2⌋ : ℤ)
  let ux := quinticFade (fractQ p.1)
  let uy := quinticFade (fractQ p.2)
  let a := hash2 (ix + 0, iy + 0)
  let b := hash2 (ix + 1, iy + 0)
  let c := hash2 (ix + 0, iy + 1)
  let d := hash2 (ix + 1, iy + 1)
  mixQ (mixQ a b ux) (mixQ c d ux) uy

/-- The per-octave rotation of `fbmDisplace`:
`p ↦ (0.866 p.x − 0.5 p.y, 0.5 p.x + 0.866 p.y)`. -/
def fbmRotate (p : ℚ × ℚ) : ℚ × ℚ :=
  (p.1 * (866/1000) - p.2 * (5/10), p.1 * (5/10) + p.2 * (866/1000))

/-- The accumulator loop of `fbmDisplace` (value, amplitude halving,
frequency doubling, rotation per octave). -/
def fbmDisplaceAux : ℕ → ℚ × ℚ → ℚ → ℚ → ℚ → ℚ
  | 0, _, _, _, value => value
  | Nat.succ n, p, amp, freq, value =>
      fbmDisplaceAux n (fbmRotate p) (amp * (5/10)) (freq * 2)
        (value + amp * (valueNoise (p.1 * freq, p.2 * freq) * 2 - 1))

/-- Displacement `fbmDisplace(uv, seed)`: 5-octave fractal displacement starting from
`p = uv + seed`, amplitude 1, frequency 1. -/
def fbmDisplace (uv seed : ℚ × ℚ) : ℚ :=
  fbmDisplaceAux 5 (uv.1 + seed.1, uv.2 + seed.2) 1 1 0

/-- The 7×7 tap offsets of the Gaussian blur (`dy, dx ∈ [-3, 3]`). -/
def blurOffsets : Finset (ℤ × ℤ) := Finset.Icc (-3 : ℤ) 3 ×ˢ Finset.Icc (-3 : ℤ) 3

/-- One blur tap weight: `exp(-(dx² + dy²) / 8)`. -/
def gaussWeight (ops : RefineOps) (d : ℤ × ℤ) : ℚ :=
  ops.fexp (-((d.1 * d.1 + d.2 * d.2 : ℤ) : ℚ) / 8)

/-- The `total` accumulator of `gaussianBlur`. -/
def blurTotal (ops : RefineOps) (F : FieldQ) (px py : ℤ) : ℚ :=
  ∑ d ∈ blurOffsets, sampleClamped F (px + d.1) (py + d.2) * gaussWeight ops d

/-- The `weight` accumulator of `gaussianBlur` (sum of all tap weights). -/
def blurWeightSum (ops : RefineOps) : ℚ := ∑ d ∈ blurOffsets, gaussWeight ops d

/-- Blur `gaussianBlur(px, py) = total / weight`. -/
def gaussianBlur (ops : RefineOps) (F : FieldQ) (px py : ℤ) : ℚ :=
  blurTotal ops F px py / blurWeightSum ops

/-- Edge detector `gradientMagnitude(px, py)`: central differences on the raw input,
then `sqrt(gx² + gy²)`. -/
def gradientMagnitude (ops : RefineOps) (F : FieldQ) (px py : ℤ) : ℚ :=
  let l := sampleClamped F (px - 1) py
  let r := sampleClamped F (px + 1) py
  let t := sampleClamped F px (py - 1)
  let b := sampleClamped F px (py + 1)
  ops.fsqrt ((r - l) * (r - l) + (b - t) * (b - t))

/-- Normalized UV coordinate of the pixel, `(px / width, py / height)`. -/
def pixelUV (F : FieldQ) (px py : ℤ) : ℚ × ℚ :=
  ((px : ℚ) / (F.width : ℚ), (py : ℚ) / (F.height : ℚ))

/-- Component `nx` of `perturbedSample`: `fbmDisplace(uv * 8, (0,0)) * 24 * edge`
(base frequency 8, max shift 24 px, scaled by the gradient magnitude). -/
def displaceX (ops : RefineOps) (F : FieldQ) (px py : ℤ) : ℚ :=
  fbmDisplace ((pixelUV F px py).1 * 8, (pixelUV F px py).2 * 8) (0, 0) * 24
    * gradientMagnitude ops F px py

/-- Component `ny` of `perturbedSample`: like `nx` but with seed `(73.1, 19.7)`. -/
def displaceY (ops : RefineOps) (F : FieldQ) (px py : ℤ) : ℚ :=
  fbmDisplace ((pixelUV F px py).1 * 8, (pixelUV F px py).2 * 8) (731/10, 197/10) * 24
    * gradientMagnitude ops F px py

/-- Resample `perturbedSample(px, py) = sampleClamped(px + i32(round(nx)), py + i32(round(ny)))`:
the displaced coordinate is read from the raw input field via `sampleClamped`. -/
def perturbedSample (ops : RefineOps) (F : FieldQ) (px py : ℤ) : ℚ :=
  sampleClamped F (px + roundEvenQ (displaceX ops F px py))
    (py + roundEvenQ (displaceY ops F px py))

/-- Sharpening `sharpenMountains(original, blurred)`: unsharp mask with brightness-gated
strength, then a power-curve contrast boost on the bright range. -/
def sharpenMountains (ops : RefineOps) (original blurred : ℚ) : ℚ :=
  let detail := original - blurred
  let strength := smoothstepQ (20/100) (55/100) original * (15/10)
  let sharpened := original + detail * strength
  let mtnBoost := smoothstepQ (40/100) (80/100) sharpened
  mixQ sharpened (ops.fpow06 sharpened) (mtnBoost * (4/10))

/-- Per-pixel main function of the refine shader for an in-bounds pixel:
blur, edge-aware perturbation blend, mountain sharpening, coastline
contrast, and the final clamp to `[0,1]` before the store. -/
def refineMain (ops : RefineOps) (F : FieldQ) (px py : ℤ) : ℚ :=
  let blurred := gaussianBlur ops F px py
  let edge := gradientMagnitude ops F px py
  let perturbed := perturbedSample ops F px py
  let edgeMix := smoothstepQ (2/100) (15/100) edge
  let smoothed := mixQ blurred perturbed (edgeMix * (7/10))
  let sharpened := sharpenMountains ops smoothed blurred
  let refined := coastlineContrast sharpened
  clampQ refined 0 1

/- ------------------------------------------------------------------ -/
/-  C1: both kernels clamp their stored sample to [0,1]               -/
/- ------------------------------------------------------------------ -/

/-- C1: for every input and both kernels, every sample written to the output
field lies in `[0, 1]`: both per-pixel main functions end by clamping the
computed value to `[0,1]` before storing it.  The terrain side is stated for
arbitrary noise-layer values and an arbitrary `pow(·, 1.3)` realisation; the
refine side for an arbitrary input field and intrinsic realisations. -/
theorem kernel_outputs_in_unit_interval :
    (∀ (fpow13 : ℚ → ℚ) (painted continental ridges detail : ℚ),
        0 ≤ terrainOut fpow13 painted continental ridges detail ∧
          terrainOut fpow13 painted continental ridges detail ≤ 1)
    ∧ ∀ (ops : RefineOps) (F : FieldQ) (px py : ℤ),
        0 ≤ refineMain ops F px py ∧ refineMain ops F px py ≤ 1 := by
  constructor
  · intro fpow13 painted continental ridges detail
    exact ⟨clampQ_nonneg _ _ zero_le_one, clampQ_le_hi _ _ _⟩
  · intro ops F px py
    exact ⟨clampQ_nonneg _ _ zero_le_one, clampQ_le_hi _ _ _⟩

/- ------------------------------------------------------------------ -/
/-  C5: what the edge-aware perturbation step resamples               -/
/- ------------------------------------------------------------------ -/

/-- The claim as stated: the value blended against the plain blurred value
equals the 7×7-Gaussian-blurred field evaluated at the displaced coordinate
`(px + round(nx), py + round(ny))`. -/
def perturbedResamplesBlurred : Prop :=
  ∀ (ops : RefineOps) (F : FieldQ) (px py : ℤ),
    perturbedSample ops F px py
      = gaussianBlur ops F (px + roundEvenQ (displaceX ops F px py))
          (py + roundEvenQ (displaceY ops F px py))

/-- A 7×7 field that is `1` at the centre pixel `(3,3)` (linear index 24)
and `0` everywhere else. -/
def spikeField : FieldQ := ⟨7, 7, fun i => if i = 24 then 1 else 0⟩

lemma spike_grad (ops : RefineOps) (hsqrt : ops.fsqrt 0 = 0) :
    gradientMagnitude ops spikeField 3 3 = 0 := by
  have h1 : sampleClamped spikeField 2 3 = 0 := by decide
  have h2 : sampleClamped spikeField 4 3 = 0 := by decide
  have h3 : sampleClamped spikeField 3 2 = 0 := by decide
  have h4 : sampleClamped spikeField 3 4 = 0 := by decide
  simp only [gradientMagnitude, show (3:ℤ) - 1 = 2 from rfl,
    show (3:ℤ) + 1 = 4 from rfl, h1, h2, h3, h4]
  simpa using hsqrt

lemma spike_dispX (ops : RefineOps) (hsqrt : ops.fsqrt 0 = 0) :
    displaceX ops spikeField 3 3 = 0 := by
  unfold displaceX
  rw [spike_grad ops hsqrt, mul_zero]

lemma spike_dispY (ops : RefineOps) (hsqrt : ops.fsqrt 0 = 0) :
    displaceY ops spikeField 3 3 = 0 := by
  unfold displaceY
  rw [spike_grad ops hsqrt, mul_zero]

lemma roundEvenQ_zero : roundEvenQ 0 = 0 := by
  simp [roundEvenQ]

lemma spike_perturbed (ops : RefineOps) (hsqrt : ops.fsqrt 0 = 0) :
    perturbedSample ops spikeField 3 3 = 1 := by
  unfold perturbedSample
  rw [spike_dispX ops hsqrt, spike_dispY ops hsqrt, roundEvenQ_zero]
  decide

lemma spike_blur_lt_one (ops : RefineOps) (hexp : ∀ x : ℚ, 0 < ops.fexp x) :
    gaussianBlur ops spikeField 3 3 < 1 := by
  have hsample : ∀ d ∈ blurOffsets,
      sampleClamped spikeField (3 + d.1) (3 + d.2)
        = if d = ((0:ℤ), (0:ℤ)) then 1 else 0 := by decide
  have hmem : ((0:ℤ), (0:ℤ)) ∈ blurOffsets := by decide
  have htotal : blurTotal ops spikeField 3 3 = gaussWeight ops (0, 0) := by
    unfold blurTotal
    have hterm : ∀ d ∈ blurOffsets,
        sampleClamped spikeField (3 + d.1) (3 + d.2) * gaussWeight ops d
          = if d = ((0:ℤ), (0:ℤ)) then gaussWeight ops d else 0 := by
      intro d hd
      rw [hsample d hd]
      by_cases h : d = ((0:ℤ), (0:ℤ)) <;> simp [h]
    rw [Finset.sum_congr rfl hterm,
      Finset.sum_ite_eq' blurOffsets ((0:ℤ), (0:ℤ)) (gaussWeight ops), if_pos hmem]
  have herase : 0 < ∑ d ∈ blurOffsets.erase ((0:ℤ), (0:ℤ)), gaussWeight ops d :=
    Finset.sum_pos (fun d _ => hexp _) ⟨((1:ℤ), (0:ℤ)), by decide⟩
  have hsum := Finset.add_sum_erase blurOffsets (gaussWeight ops) hmem
  have hS : 0 < blurWeightSum ops := Finset.sum_pos (fun d _ => hexp _) ⟨_, hmem⟩
  have hlt : gaussWeight ops (0, 0) < blurWeightSum ops := by
    unfold blurWeightSum
    rw [← hsum]
    linarith
  unfold gaussianBlur
  rw [htotal]
  exact (div_lt_one hS).mpr hlt

/-- A concrete intrinsic realisation used to instantiate the refuted claim:
constant-one `exp`, a square root that is `0` at `0`, identity `pow`. -/
def opsUnit : RefineOps := ⟨fun _ => 1, fun _ => 0, fun x => x⟩

lemma perturbed_ne_blur_spike (ops : RefineOps)
    (hexp : ∀ x : ℚ, 0 < ops.fexp x) (hsqrt : ops.fsqrt 0 = 0) :
    perturbedSample ops spikeField 3 3
      ≠ gaussianBlur ops spikeField
          (3 + roundEvenQ (displaceX ops spikeField 3 3))
          (3 + roundEvenQ (displaceY ops spikeField 3 3)) := by
  intro h
  rw [spike_perturbed ops hsqrt, spike_dispX ops hsqrt, spike_dispY ops hsqrt,
    roundEvenQ_zero] at h
  norm_num at h
  have hlt := spike_blur_lt_one ops hexp
  rw [← h] at hlt
  exact lt_irrefl 1 hlt

/-- C5 counterexample: the claim is false.  On the 7×7 spike field at pixel
`(3,3)` the gradient is `0`, so the displaced coordinate is the pixel itself;
the value blended against the blurred value is the raw input sample `1`,
whereas the 7×7-Gaussian-blurred field there is strictly below `1` for every
positive weight realisation. -/
theorem perturbed_resamples_blurred_counterexample : ¬ perturbedResamplesBlurred :=
  fun h =>
    perturbed_ne_blur_spike opsUnit (fun _ => one_pos) rfl (h opsUnit spikeField 3 3)

/-- C5 amended: the value blended against the plain blurred value is obtained
by resampling the border-clamped *raw input* field (not the blurred field) at
the displaced coordinate `(px + round(nx), py + round(ny))`, where `(nx, ny)`
is the 5-octave fractal displacement scaled by the maximum pixel-shift
constant (24) and the local gradient magnitude. -/
theorem perturbed_resamples_raw_input (ops : RefineOps) (F : FieldQ) (px py : ℤ) :
    perturbedSample ops F px py
      = sampleClamped F (px + roundEvenQ (displaceX ops F px py))
          (py + roundEvenQ (displaceY ops F px py)) := rfl

/- ------------------------------------------------------------------ -/
/-  C10: the Gaussian blur is a convex combination of clamped samples -/
/- ------------------------------------------------------------------ -/

/-- C10: the 7×7 Gaussian blur of the refinement kernel is a convex combination of
border-clamped input samples: its weights are positive and divided by their
own sum, so whenever every sample of the 7×7 clamped neighbourhood of the pixel
lies in `[lo, hi]`, the blurred value lies in `[lo, hi]` as well — in
particular an input with values in `[0,1]` blurs to a value in `[0,1]`. -/
theorem gaussianBlur_convex_bounds (ops : RefineOps) (F : FieldQ) (px py : ℤ)
    (lo hi : ℚ) (hexp : ∀ x : ℚ, 0 < ops.fexp x)
    (hbound : ∀ d ∈ blurOffsets,
      lo ≤ sampleClamped F (px + d.1) (py + d.2) ∧
        sampleClamped F (px + d.1) (py + d.2) ≤ hi) :
    lo ≤ gaussianBlur ops F px py ∧ gaussianBlur ops F px py ≤ hi := by
  have hw : ∀ d ∈ blurOffsets, 0 ≤ gaussWeight ops d := fun d _ => (hexp _).le
  have hS : 0 < blurWeightSum ops :=
    Finset.sum_pos (fun d _ => hexp _) ⟨((0:ℤ), (0:ℤ)), by decide⟩
  have hlow : lo * blurWeightSum ops ≤ blurTotal ops F px py := by
    unfold blurTotal blurWeightSum
    rw [Finset.mul_sum]
    exact Finset.sum_le_sum fun d hd =>
      mul_le_mul_of_nonneg_right (hbound d hd).1 (hw d hd)
  have hhigh : blurTotal ops F px py ≤ hi * blurWeightSum ops := by
    unfold blurTotal blurWeightSum
    rw [Finset.mul_sum]
    exact Finset.sum_le_sum fun d hd =>
      mul_le_mul_of_nonneg_right (hbound d hd).2 (hw d hd)
  constructor
  · rw [gaussianBlur, le_div_iff₀ hS]
    exact hlow
  · rw [gaussianBlur, div_le_iff₀ hS]
    exact hhigh

/-- The constant-`1/2` 2×2 field used as a witness input. -/
def halfField : FieldQ := ⟨2, 2, fun _ => 1/2⟩

/-- Witness for `gaussianBlur_convex_bounds`: the constant-`1/2` 2×2 field,
pixel `(0,0)`, bounds `[0,1]`, constant-one weights. -/
theorem gaussianBlur_convex_bounds_witness :
    (∀ x : ℚ, 0 < opsUnit.fexp x) ∧
      (∀ d ∈ blurOffsets,
        (0:ℚ) ≤ sampleClamped halfField (0 + d.1) (0 + d.2) ∧
          sampleClamped halfField (0 + d.1) (0 + d.2) ≤ 1) ∧
      (0 ≤ gaussianBlur opsUnit halfField 0 0 ∧
        gaussianBlur opsUnit halfField 0 0 ≤ 1) :=
  ⟨fun _ => one_pos,
    fun d _ => ⟨by norm_num [sampleClamped, halfField],
      by norm_num [sampleClamped, halfField]⟩,
    gaussianBlur_convex_bounds opsUnit halfField 0 0 0 1 (fun _ => one_pos)
      (fun d _ => ⟨by norm_num [sampleClamped, halfField],
        by norm_num [sampleClamped, halfField]⟩)⟩

/- ------------------------------------------------------------------ -/
/-  FieldCodec: 16-bit export (downloadHeightmap16)                   -/
/- ------------------------------------------------------------------ -/

/-- Quantisation `raw[i] = Math.round(Math.min(1, Math.max(0, heightData[i])) * 65535)`:
clamp to `[0,1]`, scale to the full 16-bit range, round to nearest
(JS `Math.round(y) = ⌊y + 1/2⌋` on the non-negative domain). -/
def encode16 (x : ℚ) : ℤ := ⌊min 1 (max 0 x) * 65535 + 1/2⌋

/-- Serialisation `view.setUint16(i * 2, raw[i], false)`: the big-endian byte pair of a
16-bit sample. -/
def beBytes (raw : ℤ) : ℕ × ℕ := (raw.toNat / 256, raw.toNat % 256)

/-- Decoding a big-endian 16-bit sample back to a normalized value:
reassemble the word and divide by 65535. -/
def decodeBE (b : ℕ × ℕ) : ℚ := ((b.1 * 256 + b.2 : ℕ) : ℚ) / 65535

/-- C6: round-trip quantization bound of the codec.  For every field value
`x ∈ [0,1]`, the encoded sample fits in 16 bits and decoding its big-endian
byte pair as `raw / 65535` reproduces `x` within `1/65535` absolute error. -/
theorem export_roundtrip_bound (x : ℚ) (h0 : 0 ≤ x) (h1 : x ≤ 1) :
    0 ≤ encode16 x ∧ encode16 x ≤ 65535 ∧
      |decodeBE (beBytes (encode16 x)) - x| ≤ 1/65535 := by
  have hclamp : min 1 (max 0 x) = x := by
    rw [max_eq_right h0, min_eq_right h1]
  have hx : encode16 x = ⌊x * 65535 + 1/2⌋ := by rw [encode16, hclamp]
  have hnn : 0 ≤ encode16 x := by
    rw [hx]
    exact Int.le_floor.mpr (by push_cast; linarith)
  have hub : encode16 x ≤ 65535 := by
    rw [hx]
    have : (⌊x * 65535 + 1/2⌋ : ℤ) < 65536 := Int.floor_lt.mpr (by push_cast; linarith)
    omega
  have hbytes : decodeBE (beBytes (encode16 x)) = ((encode16 x : ℤ) : ℚ) / 65535 := by
    unfold decodeBE beBytes
    dsimp only
    rw [Nat.div_add_mod',
      show (((encode16 x).toNat : ℕ) : ℚ) = ((encode16 x : ℤ) : ℚ) from by
        exact_mod_cast Int.toNat_of_nonneg hnn]
  refine ⟨hnn, hub, ?_⟩
  have hfl : ((⌊x * 65535 + 1/2⌋ : ℤ) : ℚ) ≤ x * 65535 + 1/2 := Int.floor_le _
  have hgt : x * 65535 + 1/2 < (⌊x * 65535 + 1/2⌋ : ℤ) + 1 := Int.lt_floor_add_one _
  rw [hbytes, hx, abs_le]
  constructor <;> [linarith; linarith]

/-- Witness for `export_roundtrip_bound` at `x = 1/3`. -/
theorem export_roundtrip_bound_witness :
    (0:ℚ) ≤ 1/3 ∧ (1/3:ℚ) ≤ 1 ∧
      (0 ≤ encode16 (1/3) ∧ encode16 (1/3) ≤ 65535 ∧
        |decodeBE (beBytes (encode16 (1/3))) - 1/3| ≤ 1/65535) :=
  ⟨by norm_num, by norm_num, export_roundtrip_bound (1/3) (by norm_num) (by norm_num)⟩

/- ------------------------------------------------------------------ -/
/-  PipelineDriver: dispatch grid and bounds guard                    -/
/- ------------------------------------------------------------------ -/

/-- Tile size `const wgSize = 16`. -/
def wgSize : ℕ := 16

/-- Grid width `Math.ceil(canvasWidth / wgSize)`. -/
def workgroupsX (w : ℕ) : ℕ := (w + wgSize - 1) / wgSize

/-- Grid height `Math.ceil(canvasHeight / wgSize)`. -/
def workgroupsY (h : ℕ) : ℕ := (h + wgSize - 1) / wgSize

/-- The write performed by the terrain-kernel thread `(px, py)`: the guard
`px >= w || py >= h` returns without a write (`none`); in-bounds threads
store at the linear index `idx = py * w + px`. -/
def kernelWrite (w h px py : ℕ) : Option ℕ :=
  if px < w ∧ py < h then some (py * w + px) else none

/-- The in-bounds thread-to-index map `(px, py) ↦ py * w + px` as a map
between the thread rectangle and the output index range. -/
def linearIdx (w h : ℕ) (p : Fin w × Fin h) : Fin (w * h) :=
  ⟨(p.2 : ℕ) * w + (p.1 : ℕ), by
    have h1 : (p.2 : ℕ) * w + (p.1 : ℕ) < ((p.2 : ℕ) + 1) * w := by
      rw [add_mul, one_mul]
      exact Nat.add_lt_add_left p.1.isLt _
    have h2 : ((p.2 : ℕ) + 1) * w ≤ h * w := Nat.mul_le_mul_right w p.2.isLt
    calc (p.2 : ℕ) * w + (p.1 : ℕ) < ((p.2 : ℕ) + 1) * w := h1
      _ ≤ h * w := h2
      _ = w * h := Nat.mul_comm h w⟩

lemma linearIdx_bijective (w h : ℕ) (hw : 0 < w) :
    Function.Bijective (linearIdx w h) := by
  constructor
  · intro p q hpq
    have hval : (p.2 : ℕ) * w + (p.1 : ℕ) = (q.2 : ℕ) * w + (q.1 : ℕ) :=
      congrArg Fin.val hpq
    have hmod : ∀ r : Fin w × Fin h,
        ((r.2 : ℕ) * w + (r.1 : ℕ)) % w = (r.1 : ℕ) := fun r => by
      rw [Nat.add_comm, Nat.add_mul_mod_self_right, Nat.mod_eq_of_lt r.1.isLt]
    have hdiv : ∀ r : Fin w × Fin h,
        ((r.2 : ℕ) * w + (r.1 : ℕ)) / w = (r.2 : ℕ) := fun r => by
      rw [Nat.add_comm, Nat.add_mul_div_right _ _ hw, Nat.div_eq_of_lt r.1.isLt,
        Nat.zero_add]
    have h1 : (p.1 : ℕ) = (q.1 : ℕ) := by rw [← hmod p, ← hmod q, hval]
    have h2 : (p.2 : ℕ) = (q.2 : ℕ) := by rw [← hdiv p, ← hdiv q, hval]
    exact Prod.ext (Fin.ext h1) (Fin.ext h2)
  · intro i
    have hdivlt : (i : ℕ) / w < h := by
      rw [Nat.div_lt_iff_lt_mul hw]
      calc (i : ℕ) < w * h := i.isLt
        _ = h * w := Nat.mul_comm w h
    refine ⟨(⟨(i : ℕ) % w, Nat.mod_lt _ hw⟩, ⟨(i : ℕ) / w, hdivlt⟩), ?_⟩
    apply Fin.ext
    show (i : ℕ) / w * w + (i : ℕ) % w = (i : ℕ)
    rw [Nat.mul_comm]
    exact Nat.div_add_mod _ _

/-- C7: dispatch coverage at 4096×4096 with 16×16 tiles.  The computed grid
is 256×256 workgroups; every in-bounds thread writes exactly the linear index
`py*4096 + px`; that map is a bijection onto `0..4096*4096-1`; and every
thread with `px ≥ 4096` or `py ≥ 4096` performs no write. -/
theorem dispatch_coverage_4096 :
    workgroupsX 4096 = 256 ∧ workgroupsY 4096 = 256 ∧
      workgroupsX 4096 * wgSize = 4096 ∧
      (∀ px py : ℕ, px < 4096 → py < 4096 →
        kernelWrite 4096 4096 px py = some (py * 4096 + px)) ∧
      Function.Bijective (linearIdx 4096 4096) ∧
      (∀ px py : ℕ, 4096 ≤ px ∨ 4096 ≤ py → kernelWrite 4096 4096 px py = none) := by
  refine ⟨by norm_num [workgroupsX, wgSize], by norm_num [workgroupsY, wgSize],
    by norm_num [workgroupsX, wgSize], ?_, linearIdx_bijective 4096 4096 (by norm_num), ?_⟩
  · intro px py hx hy
    rw [kernelWrite, if_pos ⟨hx, hy⟩]
  · intro px py hout
    rw [kernelWrite, if_neg]
    rcases hout with h | h
    · exact fun hc => absurd hc.1 (Nat.not_lt.mpr h)
    · exact fun hc => absurd hc.2 (Nat.not_lt.mpr h)

/-- Witness for `dispatch_coverage_4096`: grid size, one in-bounds write at
`(5, 7)` and one discarded out-of-bounds thread at `(4096, 0)`. -/
theorem dispatch_coverage_4096_witness :
    workgroupsX 4096 = 256 ∧
      kernelWrite 4096 4096 5 7 = some (7 * 4096 + 5) ∧
      kernelWrite 4096 4096 4096 0 = none :=
  ⟨dispatch_coverage_4096.1,
    dispatch_coverage_4096.2.2.2.1 5 7 (by norm_num) (by norm_num),
    dispatch_coverage_4096.2.2.2.2.2 4096 0 (Or.inl le_rfl)⟩

/- ------------------------------------------------------------------ -/
/-  PipelineDriver: cached pipeline state and the device-lost handler -/
/- ------------------------------------------------------------------ -/

/-- The module-level cached GPU state of one kernel identity:
`gpuDevice`, `computePipeline`/`refinePipeline`, `bindGroupLayout`
(each `null` until first use). -/
structure PipelineCache where
  gpuDevice : Option ℕ
  pipeline : Option ℕ
  bindGroupLayout : Option ℕ
deriving DecidableEq

/-- Observable console effects of the driver; `retryDispatch` is in the
vocabulary only so that "no retry is emitted" is expressible. -/
inductive DriverAction
  | logLostError
  | warnReinitialize
  | retryDispatch
deriving DecidableEq

/-- The `device.lost.then` callback of `initWebGPU`: always logs the loss,
additionally warns when the reason is not `"destroyed"`, and touches no
cached state (the caches are not even in its scope). -/
def deviceLostHandler (reasonDestroyed : Bool) (c : PipelineCache) :
    PipelineCache × List DriverAction :=
  (c, DriverAction.logLostError ::
    (if reasonDestroyed then [] else [DriverAction.warnReinitialize]))

/-- The lazy-init guard of `runHeightmapCompute`/`runRefineCompute`:
`if (!gpuDevice || !computePipeline || !bindGroupLayout)` re-acquire the
device and recompile, filling all three caches; otherwise reuse the cache
unchanged.  The second component reports whether a recompilation happened. -/
def ensurePipeline (fresh : ℕ) (c : PipelineCache) : PipelineCache × Bool :=
  if c.gpuDevice = none ∨ c.pipeline = none ∨ c.bindGroupLayout = none then
    (⟨some fresh, some fresh, some fresh⟩, true)
  else (c, false)

/-- The claim as stated: a device-lost notification clears the cached
pipeline state, so the next invocation re-acquires and recompiles. -/
def lostInvalidatesCache : Prop :=
  ∀ (reasonDestroyed : Bool) (c : PipelineCache) (fresh : ℕ),
    (deviceLostHandler reasonDestroyed c).1.pipeline = none ∧
      (ensurePipeline fresh (deviceLostHandler reasonDestroyed c).1).2 = true

/-- C8 counterexample: with a populated cache, the device-lost handler leaves
`pipeline = some 0` (not `none`) and the next invocation reuses the stale
cache without recompiling. -/
theorem lost_invalidates_cache_counterexample : ¬ lostInvalidatesCache := by
  intro h
  have hc := h false ⟨some 0, some 0, some 0⟩ 1
  have : (some 0 : Option ℕ) = none := hc.1
  exact Option.noConfusion this

/-- C8 amended: the device-lost callback only logs (an error, plus a warning
when the reason is not `"destroyed"`); it performs no retry and leaves the
cached device/pipeline/bind-group-layout untouched, so a subsequent
invocation with a populated cache reuses it without re-acquiring or
recompiling. -/
theorem deviceLost_logs_only (reasonDestroyed : Bool) (c : PipelineCache)
    (fresh d p l : ℕ) :
    (deviceLostHandler reasonDestroyed c).1 = c ∧
      DriverAction.retryDispatch ∉ (deviceLostHandler reasonDestroyed c).2 ∧
      ensurePipeline fresh ⟨some d, some p, some l⟩ = (⟨some d, some p, some l⟩, false) := by
  refine ⟨rfl, ?_, ?_⟩
  · cases reasonDestroyed <;> simp [deviceLostHandler]
  · simp [ensurePipeline]

/- ------------------------------------------------------------------ -/
/-  PipelineDriver: per-invocation buffer lifecycle                   -/
/- ------------------------------------------------------------------ -/

/-- The buffer-affecting statements of a kernel-driving call, in program
order. -/
inductive BufOp
  | createUniform
  | writeUniform
  | createInput
  | createOutput
  | writeInput
  | submitWork
  | awaitDone
  | copyToStaging
  | mapStaging
  | destroyStaging
  | destroyInput
  | destroyUniform
  | destroyOutput
deriving DecidableEq

/-- Statement order of `runHeightmapCompute`: allocate/upload, submit, await,
then destroy the input and uniform buffers (the output buffer is returned
alive to the caller). -/
def heightmapCallOps : List BufOp :=
  [.createUniform, .writeUniform, .createInput, .createOutput, .writeInput,
   .submitWork, .awaitDone, .destroyInput, .destroyUniform]

/-- Statement order of `runRefineCompute`: allocate/upload, submit, await,
read back through a staging buffer, then destroy the input, uniform and
output buffers. -/
def refineCallOps : List BufOp :=
  [.createUniform, .writeUniform, .createInput, .createOutput, .writeInput,
   .submitWork, .awaitDone, .copyToStaging, .mapStaging, .destroyStaging,
   .destroyInput, .destroyUniform, .destroyOutput]

/-- The statements a call actually executes: all of them on the success path
(`none`), or — the calls have no try/finally — only the first `k` when an
exception aborts the call at position `k`. -/
def executedOps (ops : List BufOp) : Option ℕ → List BufOp
  | none => ops
  | some k => ops.take k

/-- The transient uniform-parameter and input buffers were released by the
executed statements. -/
def transientReleased (executed : List BufOp) : Prop :=
  BufOp.destroyInput ∈ executed ∧ BufOp.destroyUniform ∈ executed

instance (executed : List BufOp) : Decidable (transientReleased executed) :=
  inferInstanceAs (Decidable (BufOp.destroyInput ∈ executed ∧ BufOp.destroyUniform ∈ executed))

/-- The claim as stated: for every invocation of a kernel-driving call, the
transient buffers are released before the call returns, on the success path
and also when the call fails partway. -/
def transientAlwaysReleased : Prop :=
  ∀ failAt : Option ℕ,
    transientReleased (executedOps heightmapCallOps failAt) ∧
      transientReleased (executedOps refineCallOps failAt)

/-- C9 counterexample: a failure thrown at the await (position 7, after
submit and before any destroy) aborts `runHeightmapCompute` with neither
transient buffer destroyed — the call has no try/finally. -/
theorem transient_release_counterexample : ¬ transientAlwaysReleased := by
  intro h
  have hc := (h (some 7)).1
  revert hc
  decide

/-- C9 amended: on the success path both calls destroy the transient uniform
and input buffers before returning, but when the call fails partway (at or
before the await, position 7) the destroys are skipped and the transient
buffers leak. -/
theorem transient_release_success_only :
    (transientReleased (executedOps heightmapCallOps none) ∧
      transientReleased (executedOps refineCallOps none)) ∧
      ¬ transientReleased (executedOps heightmapCallOps (some 7)) ∧
      ¬ transientReleased (executedOps refineCallOps (some 7)) := by
  refine ⟨⟨?_, ?_⟩, ?_, ?_⟩ <;> decide
